import Mathlib

/-!
Verification of the indicator engine of the Dr.Arthur stock-analysis
repository (`app.py`, `fetch_data.py`, `test.py`).

The pandas pipelines of the source are shallowly embedded over `List ℚ`
(the chronologically ordered daily closing prices).  IEEE special values
that pandas produces (NaN from `0/0` and from not-yet-warmed rolling
windows, infinity from `x/0`) are made explicit through the `EF` type,
so the embedding can distinguish "the code returned None" (`Option.none`,
the `except: return None` paths) from "the code returned a poisoned
float" (`EF.nan`).
-/

namespace StockIndicators

/-- An IEEE-754-style extended value: a finite rational, NaN, or a signed
infinity.  Mirrors the values a pandas float64 column can hold in the
source's arithmetic (no rounding is modelled; the source's arithmetic on
the claim inputs is exact). -/
inductive EF where
  | num (q : ℚ)
  | nan
  | inf
  | neginf
deriving DecidableEq

/-- IEEE addition on extended values. -/
def eadd : EF → EF → EF
  | .nan, _ => .nan
  | _, .nan => .nan
  | .inf, .neginf => .nan
  | .neginf, .inf => .nan
  | .inf, _ => .inf
  | _, .inf => .inf
  | .neginf, _ => .neginf
  | _, .neginf => .neginf
  | .num a, .num b => .num (a + b)

/-- IEEE negation on extended values. -/
def eneg : EF → EF
  | .nan => .nan
  | .inf => .neginf
  | .neginf => .inf
  | .num a => .num (-a)

/-- IEEE subtraction on extended values. -/
def esub (a b : EF) : EF := eadd a (eneg b)

/-- IEEE division on extended values: `0/0` is NaN, `x/0` is a signed
infinity for `x ≠ 0`, and a finite value divided by infinity is `0`. -/
def ediv : EF → EF → EF
  | .nan, _ => .nan
  | _, .nan => .nan
  | .inf, .inf => .nan
  | .inf, .neginf => .nan
  | .neginf, .inf => .nan
  | .neginf, .neginf => .nan
  | .inf, .num b => if 0 ≤ b then .inf else .neginf
  | .neginf, .num b => if 0 ≤ b then .neginf else .inf
  | .num _, .inf => .num 0
  | .num _, .neginf => .num 0
  | .num a, .num b =>
    if b = 0 then (if 0 < a then .inf else if a < 0 then .neginf else .nan)
    else .num (a / b)

/-- A missing (NaN) cell of a rolling-window column, as fed into later
arithmetic: pandas propagates it as NaN. -/
def ofNA : Option ℚ → EF
  | none => .nan
  | some q => .num q

/-- `df['Close'].diff()`: day-over-day differences; the first entry is
NaN (`none`). -/
def diffs : List ℚ → List (Option ℚ)
  | [] => []
  | p :: rest => none :: List.zipWith (fun next prev => some (next - prev)) rest (p :: rest)

/-- `delta.where(delta > 0, 0)`: positive changes kept, everything else
(including the leading NaN, whose comparison with 0 is False) replaced
by 0. -/
def gains (prices : List ℚ) : List ℚ :=
  (diffs prices).map fun d =>
    match d with
    | some x => if 0 < x then x else 0
    | none => 0

/-- `-delta.where(delta < 0, 0)`: negated negative changes, everything
else (including the leading NaN) replaced by 0. -/
def losses (prices : List ℚ) : List ℚ :=
  (diffs prices).map fun d =>
    match d with
    | some x => if x < 0 then -x else 0
    | none => 0

/-- `series.rolling(window=w).mean()`: the trailing mean of width `w`,
NaN (`none`) until `w` observations are available. -/
def rollingMean (w : ℕ) (xs : List ℚ) : List (Option ℚ) :=
  (List.range xs.length).map fun t =>
    if w ≤ t + 1 then some ((((xs.drop (t + 1 - w)).take w).sum) / (w : ℚ)) else none

/-- One cell of the RSI column: `rs = gain/loss; rsi = 100 - 100/(1+rs)`
evaluated with pandas/IEEE float semantics on possibly-NaN rolling
means. -/
def rsiVal (g l : Option ℚ) : EF :=
  let rs := ediv (ofNA g) (ofNA l)
  esub (.num 100) (ediv (.num 100) (eadd (.num 1) rs))

/-- `calculate_rsi` of `fetch_data.py` (identical formula to the body of
`get_rsi` in `app.py`/`test.py`): the full RSI series with period 14. -/
def calculate_rsi (prices : List ℚ) : List EF :=
  List.zipWith rsiVal (rollingMean 14 (gains prices)) (rollingMean 14 (losses prices))

/-- `get_rsi` of `app.py`/`test.py`, as a function of the downloaded
close-price series: `float(rsi.values[-1])`.  `none` models the
`except: return None` path, reached exactly when the series is empty
(`values[-1]` raises `IndexError`); `float` of a NaN does not raise. -/
def get_rsi (prices : List ℚ) : Option EF :=
  (calculate_rsi prices).getLast?

/-- The recursive tail of `series.ewm(span=..., adjust=False).mean()`:
`EMA[t] = a*x[t] + (1-a)*EMA[t-1]` given the previous EMA value. -/
def ewmFrom (a : ℚ) (prev : ℚ) : List ℚ → List ℚ
  | [] => []
  | x :: rest =>
    let e := a * x + (1 - a) * prev
    e :: ewmFrom a e rest

/-- `series.ewm(span=s, adjust=False).mean()`: seeded at the first
observation, smoothing factor `a = 2/(s+1)`. -/
def ewm (s : ℕ) : List ℚ → List ℚ
  | [] => []
  | x :: rest => x :: ewmFrom (2 / ((s : ℚ) + 1)) x rest

/-- The MACD line: 12-day EMA minus 26-day EMA. -/
def macdSeries (prices : List ℚ) : List ℚ :=
  List.zipWith (fun a b => a - b) (ewm 12 prices) (ewm 26 prices)

/-- The signal line: 9-day EMA of the MACD line. -/
def signalSeries (prices : List ℚ) : List ℚ :=
  ewm 9 (macdSeries prices)

/-- `calculate_macd` of `fetch_data.py`: `(macd, signal, histogram)`. -/
def calculate_macd (prices : List ℚ) : List ℚ × List ℚ × List ℚ :=
  (macdSeries prices, signalSeries prices,
    List.zipWith (fun a b => a - b) (macdSeries prices) (signalSeries prices))

/-- The floor of a rational, computed from its normalised numerator and
denominator by flooring integer division. -/
def qfloor (x : ℚ) : ℤ :=
  x.num.fdiv (x.den : ℤ)

/-- Python 3 `round` to an integer: round half to even. -/
def roundHalfEven (x : ℚ) : ℤ :=
  let f := qfloor x
  let r := x - (f : ℚ)
  if r < 1 / 2 then f
  else if 1 / 2 < r then f + 1
  else if f % 2 = 0 then f else f + 1

/-- Python 3 `round(x, d)` on the exact rational value. -/
def roundTo (d : ℕ) (x : ℚ) : ℚ :=
  (roundHalfEven (x * 10 ^ d) : ℚ) / 10 ^ d

/-- `round(v, 2)` on a possibly-special float: NaN and infinities round
to themselves. -/
def eround2 : EF → EF
  | .num q => .num (roundTo 2 q)
  | v => v

/-- `get_macd_signal` of `app.py`/`test.py` as a function of the
downloaded close-price series: `round(float(signal.values[-1]), 2)`.
`none` models the `except: return None` path (empty series only). -/
def get_macd_signal (prices : List ℚ) : Option ℚ :=
  (signalSeries prices).getLast?.map (roundTo 2)

/-- The crossover labels returned by `get_200d_50d_crossover`
(`'Golden Cross'`, `'Death Cross'`, `'No Cross'`). -/
inductive Cross where
  | goldenCross
  | deathCross
  | noCross
deriving DecidableEq

/-- One iteration of the crossover scan at absolute day index `j`
(pair of days `j-1`, `j`): skipped (`none`) when either average is NaN
or the index is out of range, otherwise the golden/death comparison of
the source. -/
def crossAt (ma50 ma200 : List (Option ℚ)) (j : ℕ) : Option Cross :=
  match ma50[j - 1]?, ma200[j - 1]?, ma50[j]?, ma200[j]? with
  | some (some p50), some (some p200), some (some c50), some (some c200) =>
    if p50 < p200 ∧ c200 ≤ c50 then some .goldenCross
    else if p200 < p50 ∧ c50 ≤ c200 then some .deathCross
    else none
  | _, _, _, _ => none

/-- The `for i in range(-5, 0)` loop: visit the candidate day indices in
chronological order and return at the first qualifying pair. -/
def firstCross (ma50 ma200 : List (Option ℚ)) : List ℕ → Option Cross
  | [] => none
  | j :: js =>
    match crossAt ma50 ma200 j with
    | some c => some c
    | none => firstCross ma50 ma200 js

/-- `get_200d_50d_crossover` of `app.py`/`test.py` as a function of the
downloaded close-price series: `None` for fewer than 200 points,
otherwise the forward scan of the last five consecutive-day pairs
(`iloc[-5]` … `iloc[-1]`), defaulting to `'No Cross'`. -/
def get_200d_50d_crossover (prices : List ℚ) : Option Cross :=
  if prices.length < 200 then none
  else
    some ((firstCross (rollingMean 50 prices) (rollingMean 200 prices)
      [prices.length - 5, prices.length - 4, prices.length - 3,
        prices.length - 2, prices.length - 1]).getD .noCross)

/-- A cell of the per-ticker result row of
`fetch_stock_data_with_indicators`: a (possibly special) number, a
plain string such as `"N/A"` or `"Error"`, or the market-cap f-string
`f"{q}B"`. -/
inductive Cell where
  | num (v : EF)
  | str (s : String)
  | capB (q : ℚ)
deriving DecidableEq

/-- The per-ticker result row of `fetch_stock_data_with_indicators`. -/
structure Row where
  ticker : String
  currentPrice : Cell
  pe : Cell
  marketCap : Cell
  dividendYield : Cell
  rsi : Cell
  macd : Cell
  signalLine : Cell
deriving DecidableEq

/-- Python `a or b` on optional floats: `a` unless it is `None` or `0.0`
(both falsy), else `b`. -/
def pyOr (a b : Option ℚ) : Option ℚ :=
  match a with
  | some x => if x = 0 then b else some x
  | none => b

/-- The row-dict construction of `fetch_stock_data_with_indicators`
(`fetch_data.py`), from the local variables of the loop body.  The first
five fields use Python truthiness (`... if value else "N/A"`), so a
value of `None` and a value of `0` both yield `"N/A"` while NaN (truthy)
is rounded and kept; the MACD and signal fields test
`... is not None`. -/
def buildRowFrom (ticker : String)
    (current_price pe_ratio market_cap dividend_yield : Option ℚ)
    (rsi : Option EF) (macd_value signal_value : Option ℚ) : Row where
  ticker := ticker
  currentPrice :=
    match current_price with
    | some q => if q = 0 then .str "N/A" else .num (.num (roundTo 2 q))
    | none => .str "N/A"
  pe :=
    match pe_ratio with
    | some q => if q = 0 then .str "N/A" else .num (.num (roundTo 2 q))
    | none => .str "N/A"
  marketCap :=
    match market_cap with
    | some q => if q = 0 then .str "N/A" else .capB (roundTo 2 (q / 1000000000))
    | none => .str "N/A"
  dividendYield :=
    match dividend_yield with
    | some q => if q = 0 then .str "N/A" else .num (.num (roundTo 4 q))
    | none => .str "N/A"
  rsi :=
    match rsi with
    | some v => if v = .num 0 then .str "N/A" else .num (eround2 v)
    | none => .str "N/A"
  macd :=
    match macd_value with
    | some q => .num (.num (roundTo 2 q))
    | none => .str "N/A"
  signalLine :=
    match signal_value with
    | some q => .num (.num (roundTo 2 q))
    | none => .str "N/A"

/-- The fields of `stock.info` and the price history a successful fetch
supplies to the loop body of `fetch_stock_data_with_indicators`. -/
structure StockInfo where
  currentPrice : Option ℚ
  regularMarketPrice : Option ℚ
  trailingPE : Option ℚ
  forwardPE : Option ℚ
  marketCap : Option ℚ
  dividendYield : Option ℚ
  history : List ℚ
deriving DecidableEq

/-- The `try` body of `fetch_stock_data_with_indicators` for one ticker:
the `or`-chains over `info`, the `len(hist) > 14` guard for the
indicators, then the row dict. -/
def processTicker (ticker : String) (info : StockInfo) : Row :=
  let current_price := pyOr info.currentPrice info.regularMarketPrice
  let pe_ratio := pyOr info.trailingPE info.forwardPE
  let rsiv : Option EF :=
    if 14 < info.history.length then (calculate_rsi info.history).getLast? else none
  let macd_value : Option ℚ :=
    if 14 < info.history.length then (macdSeries info.history).getLast? else none
  let signal_value : Option ℚ :=
    if 14 < info.history.length then (signalSeries info.history).getLast? else none
  buildRowFrom ticker current_price pe_ratio info.marketCap info.dividendYield
    rsiv macd_value signal_value

/-- The `except` branch of `fetch_stock_data_with_indicators`: every
non-ticker column is the string `"Error"`. -/
def errorRow (ticker : String) : Row where
  ticker := ticker
  currentPrice := .str "Error"
  pe := .str "Error"
  marketCap := .str "Error"
  dividendYield := .str "Error"
  rsi := .str "Error"
  macd := .str "Error"
  signalLine := .str "Error"

/-- `fetch_stock_data_with_indicators` (`fetch_data.py`): per ticker,
append the processed row on success and the `"Error"` row on failure;
the external fetch is the only fallible step and is passed in as an
oracle. -/
def fetch_stock_data_with_indicators (fetch : String → Except String StockInfo)
    (tickers : List String) : List Row :=
  tickers.map fun t =>
    match fetch t with
    | .ok info => processTicker t info
    | .error _ => errorRow t

/-- The "Analyze Stocks" loop of `app.py` (and the main loop of
`test.py`): on success the built row is appended to `results`, on an
exception only a warning is shown and nothing is appended.  The row
payload is abstract (`α`) because only presence and order of rows
matter to the batch contract. -/
def appAnalyzeLoop {α : Type} (analyze : String → Except String α)
    (tickers : List String) : List α :=
  tickers.filterMap fun t => (analyze t).toOption

/-- The trailing mean of width `w` at the final index of a series: the
value `rolling(w).mean()` takes at `iloc[-1]` once warmed up. -/
def lastAvg (w : ℕ) (xs : List ℚ) : ℚ :=
  (((xs.drop (xs.length - w)).take w).sum) / (w : ℚ)

/-- The six non-zero closing prices ending the 205-day test series. -/
def tail6 : List ℚ := [-1, 2, 0, -2, 0, 0]

/-- A 205-day price series: 199 flat days followed by `tail6`.  Its
`MA50 − MA200` spread changes sign twice inside the 5-day scan window:
a golden cross at the pair of days (199, 200) and a death cross at the
pair (201, 202). -/
def prices205 : List ℚ := List.replicate 199 0 ++ tail6

/-- A strictly increasing 15-point price series. -/
def inc15 : List ℚ := [0, 1, 2, 3, 4, 5, 6, 7, 8, 9, 10, 11, 12, 13, 14]

/-- A strictly decreasing 15-point price series. -/
def dec15 : List ℚ :=
  [100, 99, 98, 97, 96, 95, 94, 93, 92, 91, 90, 89, 88, 87, 86]

/-- The 50-point strictly increasing integer series `[10, 11, 12, ...]`
of the spec's insufficient-history scenario. -/
def c9series : List ℚ := (List.range 50).map fun k => ((10 + k : ℕ) : ℚ)

/-- A fetch result whose `info` fields are all absent and whose history
is empty. -/
def infoBlank : StockInfo :=
  { currentPrice := none, regularMarketPrice := none, trailingPE := none
    forwardPE := none, marketCap := none, dividendYield := none, history := [] }

/-- A fetch oracle that fails on the ticker `"BAD"` and succeeds (with
blank data) on every other ticker. -/
def fetchBad : String → Except String StockInfo :=
  fun t => if t = "BAD" then .error "boom" else .ok infoBlank

/-- An analysis oracle for the `app.py` loop that raises on `"BAD"` and
returns a row (abstracted to the ticker itself) otherwise. -/
def analyzeBad : String → Except String String :=
  fun t => if t = "BAD" then .error "boom" else .ok t

/-! ### Length and indexing facts about the series pipelines -/

theorem diffs_length (prices : List ℚ) : (diffs prices).length = prices.length := by
  cases prices with
  | nil => rfl
  | cons p rest => simp [diffs]

theorem gains_length (prices : List ℚ) : (gains prices).length = prices.length := by
  simp [gains, diffs_length]

theorem losses_length (prices : List ℚ) : (losses prices).length = prices.length := by
  simp [losses, diffs_length]

theorem rollingMean_length (w : ℕ) (xs : List ℚ) :
    (rollingMean w xs).length = xs.length := by
  simp [rollingMean]

theorem getElem?_rollingMean (w : ℕ) (xs : List ℚ) (t : ℕ) (ht : t < xs.length) :
    (rollingMean w xs)[t]? =
      some (if w ≤ t + 1 then
        some ((((xs.drop (t + 1 - w)).take w).sum) / (w : ℚ)) else none) := by
  simp [rollingMean, List.getElem?_map, List.getElem?_range, ht]

theorem calculate_rsi_length (prices : List ℚ) :
    (calculate_rsi prices).length = prices.length := by
  simp [calculate_rsi, rollingMean_length, gains_length, losses_length]

/-- The last RSI cell, for a non-empty series: the `rsiVal` of the last
rolling means, which are warmed up exactly when the series has at least
14 points. -/
theorem get_rsi_eq (prices : List ℚ) (h1 : 1 ≤ prices.length) :
    get_rsi prices =
      some (rsiVal
        (if 14 ≤ prices.length then some (lastAvg 14 (gains prices)) else none)
        (if 14 ≤ prices.length then some (lastAvg 14 (losses prices)) else none)) := by
  have hg : (rollingMean 14 (gains prices)).length = prices.length := by
    rw [rollingMean_length, gains_length]
  have hl : (rollingMean 14 (losses prices)).length = prices.length := by
    rw [rollingMean_length, losses_length]
  have hlen : (calculate_rsi prices).length = prices.length := calculate_rsi_length prices
  rw [get_rsi, List.getLast?_eq_getElem?, hlen, calculate_rsi,
    List.getElem?_zipWith']
  have htg : prices.length - 1 < (gains prices).length := by
    rw [gains_length]; omega
  have htl : prices.length - 1 < (losses prices).length := by
    rw [losses_length]; omega
  rw [getElem?_rollingMean 14 (gains prices) _ htg,
    getElem?_rollingMean 14 (losses prices) _ htl]
  have harith : prices.length - 1 + 1 = prices.length := by omega
  rw [harith, lastAvg, lastAvg, gains_length, losses_length]
  simp

/-! ### Signs of gains and losses -/

theorem gains_nonneg (prices : List ℚ) : ∀ x ∈ gains prices, 0 ≤ x := by
  intro x hx
  rw [gains, List.mem_map] at hx
  obtain ⟨d, -, hd⟩ := hx
  subst hd
  cases d with
  | none => exact le_refl 0
  | some v =>
    by_cases hv : 0 < v
    · simp only [hv, if_pos]; exact le_of_lt hv
    · simp only [hv, if_neg]; exact le_refl 0

theorem losses_nonneg (prices : List ℚ) : ∀ x ∈ losses prices, 0 ≤ x := by
  intro x hx
  rw [losses, List.mem_map] at hx
  obtain ⟨d, -, hd⟩ := hx
  subst hd
  cases d with
  | none => exact le_refl 0
  | some v =>
    by_cases hv : v < 0
    · simp only [hv, if_pos]; linarith
    · simp only [hv, if_neg]; exact le_refl 0

/-- Along a strictly increasing series every defined day-over-day
difference is positive. -/
theorem diffs_zip_pos (p : ℚ) (rest : List ℚ)
    (h : List.Chain' (· < ·) (p :: rest)) :
    ∀ d ∈ List.zipWith (fun next prev => some (next - prev)) rest (p :: rest),
      ∃ y, d = some y ∧ 0 < y := by
  induction rest generalizing p with
  | nil => intro d hd; simp at hd
  | cons q rest ih =>
    intro d hd
    rw [List.chain'_cons] at h
    rw [List.zipWith_cons_cons, List.mem_cons] at hd
    rcases hd with hd | hd
    · exact ⟨q - p, hd, by linarith [h.1]⟩
    · exact ih q h.2 d hd

/-- Along a strictly decreasing series every defined day-over-day
difference is negative. -/
theorem diffs_zip_neg (p : ℚ) (rest : List ℚ)
    (h : List.Chain' (· > ·) (p :: rest)) :
    ∀ d ∈ List.zipWith (fun next prev => some (next - prev)) rest (p :: rest),
      ∃ y, d = some y ∧ y < 0 := by
  induction rest generalizing p with
  | nil => intro d hd; simp at hd
  | cons q rest ih =>
    intro d hd
    rw [List.chain'_cons] at h
    rw [List.zipWith_cons_cons, List.mem_cons] at hd
    rcases hd with hd | hd
    · exact ⟨q - p, hd, by have := h.1; simp only [gt_iff_lt] at this; linarith⟩
    · exact ih q h.2 d hd

/-- On a strictly increasing series the loss column is identically 0. -/
theorem losses_eq_zero_of_inc (prices : List ℚ)
    (h : List.Chain' (· < ·) prices) : ∀ x ∈ losses prices, x = 0 := by
  intro x hx
  rw [losses, List.mem_map] at hx
  obtain ⟨d, hd, hfd⟩ := hx
  subst hfd
  cases prices with
  | nil => simp [diffs] at hd
  | cons p rest =>
    rw [diffs, List.mem_cons] at hd
    rcases hd with hd | hd
    · subst hd; rfl
    · obtain ⟨y, rfl, hy⟩ := diffs_zip_pos p rest h d hd
      simp only
      rw [if_neg (by linarith)]

/-- On a strictly decreasing series the gain column is identically 0. -/
theorem gains_eq_zero_of_dec (prices : List ℚ)
    (h : List.Chain' (· > ·) prices) : ∀ x ∈ gains prices, x = 0 := by
  intro x hx
  rw [gains, List.mem_map] at hx
  obtain ⟨d, hd, hfd⟩ := hx
  subst hfd
  cases prices with
  | nil => simp [diffs] at hd
  | cons p rest =>
    rw [diffs, List.mem_cons] at hd
    rcases hd with hd | hd
    · subst hd; rfl
    · obtain ⟨y, rfl, hy⟩ := diffs_zip_neg p rest h d hd
      simp only
      rw [if_neg (by linarith)]

/-- On a strictly increasing series every gain after the artificial
leading 0 is positive. -/
theorem gains_drop_one_pos (prices : List ℚ)
    (h : List.Chain' (· < ·) prices) : ∀ x ∈ (gains prices).drop 1, 0 < x := by
  intro x hx
  cases prices with
  | nil => simp [gains, diffs] at hx
  | cons p rest =>
    rw [gains, diffs, List.map_cons, List.drop_one, List.tail_cons] at hx
    rw [List.mem_map] at hx
    obtain ⟨d, hd, hfd⟩ := hx
    obtain ⟨y, rfl, hy⟩ := diffs_zip_pos p rest h d hd
    subst hfd
    simp [if_pos hy, hy]

/-- On a strictly decreasing series every loss after the artificial
leading 0 is positive. -/
theorem losses_drop_one_pos (prices : List ℚ)
    (h : List.Chain' (· > ·) prices) : ∀ x ∈ (losses prices).drop 1, 0 < x := by
  intro x hx
  cases prices with
  | nil => simp [losses, diffs] at hx
  | cons p rest =>
    rw [losses, diffs, List.map_cons, List.drop_one, List.tail_cons] at hx
    rw [List.mem_map] at hx
    obtain ⟨d, hd, hfd⟩ := hx
    obtain ⟨y, rfl, hy⟩ := diffs_zip_neg p rest h d hd
    subst hfd
    simp [if_pos hy, hy]

/-! ### Values of the last rolling means -/

theorem lastAvg_nonneg (w : ℕ) (xs : List ℚ) (hxs : ∀ x ∈ xs, 0 ≤ x) :
    0 ≤ lastAvg w xs := by
  apply div_nonneg _ (by positivity)
  apply List.sum_nonneg
  intro x hx
  exact hxs x (List.mem_of_mem_drop (List.mem_of_mem_take hx))

theorem lastAvg_eq_zero (w : ℕ) (xs : List ℚ) (hxs : ∀ x ∈ xs, x = 0) :
    lastAvg w xs = 0 := by
  rw [lastAvg, List.sum_eq_zero, zero_div]
  intro x hx
  exact hxs x (List.mem_of_mem_drop (List.mem_of_mem_take hx))

/-- When the series has at least `w + 1` points, the final trailing
window of the gain/loss column avoids the artificial leading 0 and has
exactly `w` entries; if all entries after the leading 0 are positive,
the final average is positive. -/
theorem lastAvg_pos (w : ℕ) (hw : 0 < w) (xs : List ℚ)
    (hlen : w + 1 ≤ xs.length) (hpos : ∀ x ∈ xs.drop 1, 0 < x) :
    0 < lastAvg w xs := by
  rw [lastAvg]
  apply div_pos _ (by positivity)
  apply List.sum_pos
  · intro x hx
    have hx' : x ∈ xs.drop (xs.length - w) := List.mem_of_mem_take hx
    have hsplit : xs.drop (xs.length - w) = (xs.drop 1).drop (xs.length - w - 1) := by
      rw [List.drop_drop]
      congr 1
      omega
    rw [hsplit] at hx'
    exact hpos x (List.mem_of_mem_drop hx')
  · have hlt : (xs.drop (xs.length - w)).length = w := by
      rw [List.length_drop]; omega
    intro hcon
    rw [List.take_eq_nil_iff] at hcon
    rcases hcon with hcon | hcon
    · omega
    · rw [hcon] at hlt
      simp at hlt
      omega

/-! ### Evaluating one RSI cell -/

theorem rsiVal_none_none : rsiVal none none = EF.nan := rfl

theorem rsiVal_zero_zero : rsiVal (some 0) (some 0) = EF.nan := by
  have h00 : ediv (EF.num 0) (EF.num 0) = EF.nan := by
    show (if (0 : ℚ) = 0 then
        if 0 < (0 : ℚ) then EF.inf else if (0 : ℚ) < 0 then EF.neginf else EF.nan
      else EF.num (0 / 0)) = EF.nan
    norm_num
  show esub (EF.num 100)
      (ediv (EF.num 100) (eadd (EF.num 1) (ediv (EF.num 0) (EF.num 0)))) = EF.nan
  rw [h00]
  rfl

theorem rsiVal_pos_zero {g : ℚ} (hg : 0 < g) :
    rsiVal (some g) (some 0) = EF.num 100 := by
  simp only [rsiVal, ofNA, ediv, if_pos rfl, if_pos hg]
  simp [eadd, ediv, esub, eneg]

theorem rsiVal_of_denom_ne {g l : ℚ} (hl : l ≠ 0) (h1 : 1 + g / l ≠ 0) :
    rsiVal (some g) (some l) = EF.num (100 - 100 / (1 + g / l)) := by
  simp only [rsiVal, ofNA, ediv, if_neg hl, eadd, if_neg h1, esub, eneg, eadd]
  ring_nf

/-! ### Gain and loss columns of a constant series -/

theorem zip_diffs_replicate (n : ℕ) (c : ℚ) :
    List.zipWith (fun next prev => some (next - prev))
      (List.replicate n c) (c :: List.replicate n c) = List.replicate n (some 0) := by
  induction n with
  | zero => rfl
  | succ n ih =>
    rw [List.replicate_succ]
    rw [List.zipWith_cons_cons, sub_self]
    rw [show (c :: List.replicate n c) = List.replicate (n + 1) c from
      (List.replicate_succ c n).symm] at ih ⊢
    rw [show List.replicate (n + 1) (some (0 : ℚ)) =
      some (0 : ℚ) :: List.replicate n (some 0) from List.replicate_succ _ n]
    exact congrArg _ ih

theorem gains_replicate (n : ℕ) (c : ℚ) :
    gains (List.replicate n c) = List.replicate n 0 := by
  cases n with
  | zero => rfl
  | succ n =>
    rw [List.replicate_succ, gains, diffs, zip_diffs_replicate, List.map_cons,
      List.map_replicate]
    simp only [lt_irrefl, if_neg]
    exact (List.replicate_succ _ _).symm

theorem losses_replicate (n : ℕ) (c : ℚ) :
    losses (List.replicate n c) = List.replicate n 0 := by
  cases n with
  | zero => rfl
  | succ n =>
    rw [List.replicate_succ, losses, diffs, zip_diffs_replicate, List.map_cons,
      List.map_replicate]
    simp only [lt_irrefl, if_neg, neg_zero]
    exact (List.replicate_succ _ _).symm

/-- On any constant series of at least 14 points both trailing averages
are 0, so `rs = 0/0` and the final RSI cell is NaN — which `float()`
passes through instead of turning into `None`. -/
theorem get_rsi_replicate_nan (n : ℕ) (c : ℚ) (hn : 14 ≤ n) :
    get_rsi (List.replicate n c) = some EF.nan := by
  rw [get_rsi_eq _ (by simp; omega)]
  rw [gains_replicate, losses_replicate]
  rw [List.length_replicate, if_pos hn]
  rw [lastAvg_eq_zero _ _ (by intro x hx; exact (List.eq_of_mem_replicate hx))]
  rw [rsiVal_zero_zero]

/-- The RSI of any strictly increasing series of at least 15 points:
the loss column is identically 0, the final gain average is positive,
`rs = +inf` and the cell saturates to exactly 100. -/
theorem get_rsi_inc_100 (prices : List ℚ) (h15 : 15 ≤ prices.length)
    (hmono : List.Chain' (· < ·) prices) :
    get_rsi prices = some (EF.num 100) := by
  rw [get_rsi_eq _ (by omega)]
  rw [if_pos (by omega), if_pos (by omega)]
  rw [lastAvg_eq_zero 14 (losses prices) (losses_eq_zero_of_inc prices hmono)]
  rw [rsiVal_pos_zero]
  apply lastAvg_pos 14 (by norm_num)
  · rw [gains_length]; omega
  · exact gains_drop_one_pos prices hmono

/-- The RSI of any strictly decreasing series of at least 15 points:
the gain column is identically 0, the final loss average is positive,
`rs = 0` and the cell is exactly 0. -/
theorem get_rsi_dec_0 (prices : List ℚ) (h15 : 15 ≤ prices.length)
    (hmono : List.Chain' (· > ·) prices) :
    get_rsi prices = some (EF.num 0) := by
  rw [get_rsi_eq _ (by omega)]
  rw [if_pos (by omega), if_pos (by omega)]
  rw [lastAvg_eq_zero 14 (gains prices) (gains_eq_zero_of_dec prices hmono)]
  have hL : 0 < lastAvg 14 (losses prices) := by
    apply lastAvg_pos 14 (by norm_num)
    · rw [losses_length]; omega
    · exact losses_drop_one_pos prices hmono
  rw [rsiVal_of_denom_ne (ne_of_gt hL) (by rw [zero_div, add_zero]; norm_num)]
  rw [zero_div, add_zero]
  norm_num

/-- Whenever the last RSI cell is a finite number, that number lies in
`[0, 100]`: the only finite outcomes are `100` (zero loss average,
positive gain average) and `100 - 100/(1 + rs)` with `rs ≥ 0`. -/
theorem get_rsi_range (prices : List ℚ) (q : ℚ)
    (h : get_rsi prices = some (EF.num q)) : 0 ≤ q ∧ q ≤ 100 := by
  rcases Nat.eq_zero_or_pos prices.length with h0 | h1
  · rw [List.length_eq_zero.mp h0] at h
    exact Option.noConfusion h
  · rw [get_rsi_eq _ h1] at h
    by_cases h14 : 14 ≤ prices.length
    · rw [if_pos h14, if_pos h14] at h
      have hG : 0 ≤ lastAvg 14 (gains prices) :=
        lastAvg_nonneg _ _ (gains_nonneg prices)
      have hL : 0 ≤ lastAvg 14 (losses prices) :=
        lastAvg_nonneg _ _ (losses_nonneg prices)
      by_cases hL0 : lastAvg 14 (losses prices) = 0
      · rw [hL0] at h
        rcases eq_or_lt_of_le hG with hG0 | hGpos
        · rw [← hG0, rsiVal_zero_zero] at h
          simp at h
        · rw [rsiVal_pos_zero hGpos] at h
          simp only [Option.some.injEq, EF.num.injEq] at h
          subst h
          norm_num
      · have hLpos : 0 < lastAvg 14 (losses prices) :=
          lt_of_le_of_ne hL (Ne.symm hL0)
        have hrs : 0 ≤ lastAvg 14 (gains prices) / lastAvg 14 (losses prices) :=
          div_nonneg hG (le_of_lt hLpos)
        have h1d : (1 : ℚ) ≤ 1 + lastAvg 14 (gains prices) / lastAvg 14 (losses prices) := by
          linarith
        rw [rsiVal_of_denom_ne hL0 (by linarith)] at h
        simp only [Option.some.injEq, EF.num.injEq] at h
        have hub : 100 / (1 + lastAvg 14 (gains prices) / lastAvg 14 (losses prices)) ≤ 100 :=
          div_le_self (by norm_num) h1d
        have hlb : 0 < 100 / (1 + lastAvg 14 (gains prices) / lastAvg 14 (losses prices)) :=
          div_pos (by norm_num) (by linarith)
        constructor <;> linarith [h]
    · rw [if_neg h14, if_neg h14, rsiVal_none_none] at h
      simp at h

/-! ### Exponential moving averages of a constant series -/

theorem ewmFrom_replicate (a c : ℚ) (n : ℕ) :
    ewmFrom a c (List.replicate n c) = List.replicate n c := by
  induction n with
  | zero => rfl
  | succ n ih =>
    rw [List.replicate_succ, ewmFrom]
    have hc : a * c + (1 - a) * c = c := by ring
    simp only [hc]
    rw [ih]

theorem ewm_replicate (s : ℕ) (c : ℚ) (n : ℕ) :
    ewm s (List.replicate n c) = List.replicate n c := by
  cases n with
  | zero => rfl
  | succ n =>
    rw [List.replicate_succ, ewm, ewmFrom_replicate]

theorem zipWith_sub_replicate (n : ℕ) (c d : ℚ) :
    List.zipWith (fun a b => a - b) (List.replicate n c) (List.replicate n d) =
      List.replicate n (c - d) := by
  induction n with
  | zero => rfl
  | succ n ih =>
    rw [List.replicate_succ, List.replicate_succ, List.zipWith_cons_cons, ih,
      List.replicate_succ]

/-! ### The crossover scan -/

theorem prices205_length : prices205.length = 205 := by
  rw [prices205, List.length_append, List.length_replicate]
  rfl

/-- The forward scan of `get_200d_50d_crossover` stops at the first
qualifying day: if all earlier candidate pairs are skipped or
non-qualifying and the pair at offset `k` qualifies with label `c`, the
function returns `c`. -/
theorem firstCross_of_first (prices : List ℚ) (h200 : 200 ≤ prices.length)
    (k : ℕ) (hk : k < 5) (c : Cross)
    (hearlier : ∀ k' < k, crossAt (rollingMean 50 prices) (rollingMean 200 prices)
      (prices.length - 5 + k') = none)
    (hc : crossAt (rollingMean 50 prices) (rollingMean 200 prices)
      (prices.length - 5 + k) = some c) :
    firstCross (rollingMean 50 prices) (rollingMean 200 prices)
      [prices.length - 5, prices.length - 4, prices.length - 3,
        prices.length - 2, prices.length - 1] = some c := by
  have e1 : prices.length - 5 + 1 = prices.length - 4 := by omega
  have e2 : prices.length - 5 + 2 = prices.length - 3 := by omega
  have e3 : prices.length - 5 + 3 = prices.length - 2 := by omega
  have e4 : prices.length - 5 + 4 = prices.length - 1 := by omega
  interval_cases k
  · rw [Nat.add_zero] at hc
    simp only [firstCross, hc]
  · have h0 := hearlier 0 (by omega)
    rw [Nat.add_zero] at h0
    rw [e1] at hc
    simp only [firstCross, h0, hc]
  · have h0 := hearlier 0 (by omega)
    have h1 := hearlier 1 (by omega)
    rw [Nat.add_zero] at h0
    rw [e1] at h1
    rw [e2] at hc
    simp only [firstCross, h0, h1, hc]
  · have h0 := hearlier 0 (by omega)
    have h1 := hearlier 1 (by omega)
    have h2 := hearlier 2 (by omega)
    rw [Nat.add_zero] at h0
    rw [e1] at h1
    rw [e2] at h2
    rw [e3] at hc
    simp only [firstCross, h0, h1, h2, hc]
  · have h0 := hearlier 0 (by omega)
    have h1 := hearlier 1 (by omega)
    have h2 := hearlier 2 (by omega)
    have h3 := hearlier 3 (by omega)
    rw [Nat.add_zero] at h0
    rw [e1] at h1
    rw [e2] at h2
    rw [e3] at h3
    rw [e4] at hc
    simp only [firstCross, h0, h1, h2, h3, hc]

/-- In `prices205` every scanned trailing window overlaps the flat
prefix, so each rolling mean at day `t ≥ 199` is the sum of the first
`t - 198` entries of `tail6` divided by the window width. -/
theorem rollingMean_prices205 (w t : ℕ) (hw : w ≤ t + 1) (ht : t < 205)
    (hstart : t + 1 - w ≤ 199) (h199 : 199 ≤ t) :
    (rollingMean w prices205)[t]? =
      some (some (((tail6.take (t - 198)).sum) / (w : ℚ))) := by
  rw [getElem?_rollingMean w prices205 t (by rw [prices205_length]; exact ht)]
  rw [if_pos hw]
  rw [prices205]
  rw [List.drop_append_of_le_length (by rw [List.length_replicate]; omega), List.drop_replicate]
  rw [List.take_append_eq_append_take, List.take_replicate, List.length_replicate]
  rw [List.sum_append, List.sum_replicate, smul_zero, zero_add]
  have harith : w - (199 - (t + 1 - w)) = t - 198 := by omega
  rw [harith]

theorem sum_take1_tail6 : ((tail6.take 1).sum : ℚ) = -1 := by
  rw [show tail6.take 1 = [-1] from rfl]
  simp

theorem sum_take2_tail6 : ((tail6.take 2).sum : ℚ) = 1 := by
  rw [show tail6.take 2 = [-1, 2] from rfl]
  norm_num

theorem sum_take3_tail6 : ((tail6.take 3).sum : ℚ) = 1 := by
  rw [show tail6.take 3 = [-1, 2, 0] from rfl]
  norm_num

theorem sum_take4_tail6 : ((tail6.take 4).sum : ℚ) = -1 := by
  rw [show tail6.take 4 = [-1, 2, 0, -2] from rfl]
  norm_num

theorem sum_take5_tail6 : ((tail6.take 5).sum : ℚ) = -1 := by
  rw [show tail6.take 5 = [-1, 2, 0, -2, 0] from rfl]
  norm_num

theorem sum_take6_tail6 : ((tail6.take 6).sum : ℚ) = -1 := by
  rw [show tail6.take 6 = [-1, 2, 0, -2, 0, 0] from rfl]
  norm_num

theorem ma50_205_at (t : ℕ) (h1 : 199 ≤ t) (h2 : t ≤ 204) :
    (rollingMean 50 prices205)[t]? =
      some (some (((tail6.take (t - 198)).sum) / (50 : ℚ))) := by
  have := rollingMean_prices205 50 t (by omega) (by omega) (by omega) h1
  simpa using this

theorem ma200_205_at (t : ℕ) (h1 : 199 ≤ t) (h2 : t ≤ 204) :
    (rollingMean 200 prices205)[t]? =
      some (some (((tail6.take (t - 198)).sum) / (200 : ℚ))) := by
  have := rollingMean_prices205 200 t (by omega) (by omega) (by omega) h1
  simpa using this

theorem crossAt205_200 :
    crossAt (rollingMean 50 prices205) (rollingMean 200 prices205) 200 =
      some Cross.goldenCross := by
  unfold crossAt
  rw [show (200 : ℕ) - 1 = 199 from rfl]
  rw [ma50_205_at 199 (by omega) (by omega), ma200_205_at 199 (by omega) (by omega),
    ma50_205_at 200 (by omega) (by omega), ma200_205_at 200 (by omega) (by omega)]
  rw [show (199 : ℕ) - 198 = 1 from rfl, show (200 : ℕ) - 198 = 2 from rfl]
  rw [sum_take1_tail6, sum_take2_tail6]
  norm_num

theorem crossAt205_201 :
    crossAt (rollingMean 50 prices205) (rollingMean 200 prices205) 201 = none := by
  unfold crossAt
  rw [show (201 : ℕ) - 1 = 200 from rfl]
  rw [ma50_205_at 200 (by omega) (by omega), ma200_205_at 200 (by omega) (by omega),
    ma50_205_at 201 (by omega) (by omega), ma200_205_at 201 (by omega) (by omega)]
  rw [show (200 : ℕ) - 198 = 2 from rfl, show (201 : ℕ) - 198 = 3 from rfl]
  rw [sum_take2_tail6, sum_take3_tail6]
  norm_num

theorem crossAt205_202 :
    crossAt (rollingMean 50 prices205) (rollingMean 200 prices205) 202 =
      some Cross.deathCross := by
  unfold crossAt
  rw [show (202 : ℕ) - 1 = 201 from rfl]
  rw [ma50_205_at 201 (by omega) (by omega), ma200_205_at 201 (by omega) (by omega),
    ma50_205_at 202 (by omega) (by omega), ma200_205_at 202 (by omega) (by omega)]
  rw [show (201 : ℕ) - 198 = 3 from rfl, show (202 : ℕ) - 198 = 4 from rfl]
  rw [sum_take3_tail6, sum_take4_tail6]
  norm_num

theorem crossAt205_203 :
    crossAt (rollingMean 50 prices205) (rollingMean 200 prices205) 203 = none := by
  unfold crossAt
  rw [show (203 : ℕ) - 1 = 202 from rfl]
  rw [ma50_205_at 202 (by omega) (by omega), ma200_205_at 202 (by omega) (by omega),
    ma50_205_at 203 (by omega) (by omega), ma200_205_at 203 (by omega) (by omega)]
  rw [show (202 : ℕ) - 198 = 4 from rfl, show (203 : ℕ) - 198 = 5 from rfl]
  rw [sum_take4_tail6, sum_take5_tail6]
  norm_num

theorem crossAt205_204 :
    crossAt (rollingMean 50 prices205) (rollingMean 200 prices205) 204 = none := by
  unfold crossAt
  rw [show (204 : ℕ) - 1 = 203 from rfl]
  rw [ma50_205_at 203 (by omega) (by omega), ma200_205_at 203 (by omega) (by omega),
    ma50_205_at 204 (by omega) (by omega), ma200_205_at 204 (by omega) (by omega)]
  rw [show (203 : ℕ) - 198 = 5 from rfl, show (204 : ℕ) - 198 = 6 from rfl]
  rw [sum_take5_tail6, sum_take6_tail6]
  norm_num

/-- The code's verdict on `prices205`: the scan visits the golden pair
at day 200 before the death pair at day 202 and returns `GoldenCross`. -/
theorem get_cross_prices205 :
    get_200d_50d_crossover prices205 = some Cross.goldenCross := by
  have h5 : prices205.length - 5 = 200 := by rw [prices205_length]
  simp only [get_200d_50d_crossover, prices205_length]
  rw [if_neg (by omega)]
  rw [show (205 : ℕ) - 5 = 200 from rfl]
  simp only [firstCross, crossAt205_200]
  rfl

/-! ### Rounding and row assembly -/

theorem qfloor_zero : qfloor 0 = 0 := by
  rw [qfloor]
  norm_num

theorem roundHalfEven_zero : roundHalfEven 0 = 0 := by
  rw [roundHalfEven]
  simp only [qfloor_zero]
  norm_num

theorem roundTo_zero (d : ℕ) : roundTo d 0 = 0 := by
  rw [roundTo, zero_mul, roundHalfEven_zero]
  simp

/-! ### The batch loops -/

theorem fetch_rows_tickers (fetch : String → Except String StockInfo)
    (tickers : List String) :
    (fetch_stock_data_with_indicators fetch tickers).map Row.ticker = tickers := by
  rw [fetch_stock_data_with_indicators, List.map_map]
  have h : ∀ t, (Row.ticker ∘ fun t =>
      match fetch t with
      | .ok info => processTicker t info
      | .error _ => errorRow t) t = t := by
    intro t
    cases h : fetch t with
    | ok info => simp [Function.comp, h, processTicker, buildRowFrom]
    | error e => simp [Function.comp, h, errorRow]
  induction tickers with
  | nil => rfl
  | cons t rest ih => rw [List.map_cons, h, ih]

theorem fetch_rows_error (fetch : String → Except String StockInfo)
    (tickers : List String) (k : ℕ) (hk : k < tickers.length) (e : String)
    (he : fetch (tickers.get ⟨k, hk⟩) = .error e) :
    (fetch_stock_data_with_indicators fetch tickers)[k]? =
      some (errorRow (tickers.get ⟨k, hk⟩)) := by
  rw [fetch_stock_data_with_indicators, List.getElem?_map,
    List.getElem?_eq_getElem hk]
  have hg : tickers[k] = tickers.get ⟨k, hk⟩ := rfl
  rw [Option.map_some', hg, he]

theorem appLoop_drops_failed {α : Type} (analyze : String → Except String α)
    (t : String) (rest : List String) (e : String) (h : analyze t = .error e) :
    appAnalyzeLoop analyze (t :: rest) = appAnalyzeLoop analyze rest := by
  rw [appAnalyzeLoop, List.filterMap_cons, h]
  rfl

/-! ## The claims -/

/-- C1 counterexample: on `prices205` the most recent qualifying
consecutive-day pair inside the 5-day window is the death cross at day
202 (days 203 and 204 do not qualify), yet the function returns
`GoldenCross` — the label of the oldest qualifying pair, day 200 — so
the claimed most-recent-pair semantics is false at this input. -/
theorem C1_counterexample :
    get_200d_50d_crossover prices205 = some Cross.goldenCross ∧
    crossAt (rollingMean 50 prices205) (rollingMean 200 prices205) 202 =
      some Cross.deathCross ∧
    crossAt (rollingMean 50 prices205) (rollingMean 200 prices205) 203 = none ∧
    crossAt (rollingMean 50 prices205) (rollingMean 200 prices205) 204 = none ∧
    Cross.goldenCross ≠ Cross.deathCross :=
  ⟨get_cross_prices205, crossAt205_202, crossAt205_203, crossAt205_204,
    fun h => Cross.noConfusion h⟩

/-- C1 (amended): for a series of at least 200 points, when more than
one consecutive-day pair in the 5-day window qualifies, the label
returned is the one for the EARLIEST qualifying pair: the scan proceeds
forward from the fifth-from-last day and stops at the first qualifying
day found. -/
theorem C1_earliest_qualifying_pair_wins (prices : List ℚ)
    (h200 : 200 ≤ prices.length) (k : ℕ) (hk : k < 5) (c : Cross)
    (hearlier : ∀ k' < k, crossAt (rollingMean 50 prices) (rollingMean 200 prices)
      (prices.length - 5 + k') = none)
    (hc : crossAt (rollingMean 50 prices) (rollingMean 200 prices)
      (prices.length - 5 + k) = some c) :
    get_200d_50d_crossover prices = some c := by
  simp only [get_200d_50d_crossover]
  rw [if_neg (by omega), firstCross_of_first prices h200 k hk c hearlier hc]
  rfl

/-- C1 witness: at `prices205` the earliest qualifying pair is the
golden cross at offset 0 of the window, and the function returns it. -/
theorem C1_witness : get_200d_50d_crossover prices205 = some Cross.goldenCross :=
  C1_earliest_qualifying_pair_wins prices205
    (by rw [prices205_length]; omega) 0 (by omega) Cross.goldenCross
    (fun k' hk' => absurd hk' (Nat.not_lt_zero k'))
    (by rw [prices205_length]; exact crossAt205_200)

/-- C2: on a constant price series of length 15 both trailing averages
are 0, `rs = 0/0` is NaN, and `get_rsi` returns that NaN (`float` of a
NaN does not raise, so the `except: return None` path is not taken) —
the code emits a poisoned value where the claim requires
Unknown/absent. -/
theorem C2_constant_series_returns_nan :
    get_rsi (List.replicate 15 (100 : ℚ)) = some EF.nan :=
  get_rsi_replicate_nan 15 100 (by norm_num)

/-- C3 counterexample: on the single-point series `[5]` the MACD/signal
calculator returns the numeric value `0.0` and the RSI calculator
returns NaN — neither is the claimed Unknown/absent. -/
theorem C3_counterexample :
    get_macd_signal [(5 : ℚ)] = some 0 ∧ get_rsi [(5 : ℚ)] = some EF.nan := by
  constructor
  · show some (roundTo 2 ((5 : ℚ) - 5)) = some 0
    rw [sub_self, roundTo_zero]
  · rfl

/-- C3 (amended): on an empty series all three calculators return
Unknown (`None`) without raising; on a single-point series only the
crossover detector returns Unknown, while the RSI calculator returns
NaN (poisoned, not absent) and the MACD/signal calculator returns the
numeric value `0.0`. -/
theorem C3_empty_and_single_point (p : ℚ) :
    get_rsi ([] : List ℚ) = none ∧
    get_macd_signal ([] : List ℚ) = none ∧
    get_200d_50d_crossover ([] : List ℚ) = none ∧
    get_200d_50d_crossover [p] = none ∧
    get_rsi [p] = some EF.nan ∧
    get_macd_signal [p] = some 0 := by
  refine ⟨rfl, rfl, rfl, rfl, rfl, ?_⟩
  show some (roundTo 2 (p - p)) = some 0
  rw [sub_self, roundTo_zero]

/-- C4 counterexample: the `app.py` analyze loop drops the row of the
failing ticker `"BAD"` entirely — the batch result has one row for two
requested tickers and no `Error` row. -/
theorem C4_counterexample :
    appAnalyzeLoop analyzeBad ["BAD", "OK"] = ["OK"] ∧
    (appAnalyzeLoop analyzeBad ["BAD", "OK"]).length ≠
      (["BAD", "OK"] : List String).length := by
  have h : appAnalyzeLoop analyzeBad ["BAD", "OK"] = ["OK"] := rfl
  exact ⟨h, by rw [h]; simp⟩

/-- C4 (amended): `fetch_stock_data_with_indicators` produces exactly
one row per requested ticker in the original input order and flags a
failed ticker's row as `Error` instead of dropping it; the `app.py`
analyze loop (and the `test.py` main loop) instead drops a failing
ticker's row, though the failure still does not abort the remaining
tickers. -/
theorem C4_batch_rows (fetch : String → Except String StockInfo)
    (tickers : List String) (k : ℕ) (hk : k < tickers.length) (e : String)
    (he : fetch (tickers.get ⟨k, hk⟩) = .error e) :
    (fetch_stock_data_with_indicators fetch tickers).map Row.ticker = tickers ∧
    (fetch_stock_data_with_indicators fetch tickers)[k]? =
      some (errorRow (tickers.get ⟨k, hk⟩)) ∧
    ∀ (α : Type) (analyze : String → Except String α) (t : String)
      (rest : List String) (e' : String), analyze t = .error e' →
        appAnalyzeLoop analyze (t :: rest) = appAnalyzeLoop analyze rest :=
  ⟨fetch_rows_tickers fetch tickers,
    fetch_rows_error fetch tickers k hk e he,
    fun _ analyze t rest e' h => appLoop_drops_failed analyze t rest e' h⟩

/-- C4 witness: with the oracle failing on `"BAD"`, the fetch_data batch
keeps one row per ticker in order and flags the failed row. -/
theorem C4_witness :
    (fetch_stock_data_with_indicators fetchBad ["BAD", "OK"]).map Row.ticker =
      ["BAD", "OK"] ∧
    (fetch_stock_data_with_indicators fetchBad ["BAD", "OK"])[0]? =
      some (errorRow "BAD") := by
  have h := C4_batch_rows fetchBad ["BAD", "OK"] 0 (by norm_num) "boom" rfl
  exact ⟨h.1, h.2.1⟩

/-- C5: on a constant price series every EMA equals the constant, so the
MACD line, the signal line and the histogram of `calculate_macd` are
identically 0 — in particular 0 at every point after warm-up. -/
theorem C5_constant_macd_signal_zero (c : ℚ) (n : ℕ) :
    calculate_macd (List.replicate n c) =
      (List.replicate n 0, List.replicate n 0, List.replicate n 0) := by
  have hm : macdSeries (List.replicate n c) = List.replicate n 0 := by
    rw [macdSeries, ewm_replicate, ewm_replicate, zipWith_sub_replicate, sub_self]
  have hs : signalSeries (List.replicate n c) = List.replicate n 0 := by
    rw [signalSeries, hm, ewm_replicate]
  rw [calculate_macd, hm, hs, zipWith_sub_replicate, sub_self]

/-- C6: on any strictly increasing price series of at least 15 points
the RSI calculator returns exactly 100. -/
theorem C6_strictly_increasing_rsi_100 (prices : List ℚ)
    (h15 : 15 ≤ prices.length) (hmono : List.Chain' (· < ·) prices) :
    get_rsi prices = some (EF.num 100) :=
  get_rsi_inc_100 prices h15 hmono

/-- C6 witness: the concrete strictly increasing series `inc15`. -/
theorem C6_witness : get_rsi inc15 = some (EF.num 100) :=
  C6_strictly_increasing_rsi_100 inc15 (by norm_num [inc15])
    (by simp [inc15, List.chain'_cons]; norm_num)

/-- C7: on any strictly decreasing price series of at least 15 points
the RSI calculator returns exactly 0. -/
theorem C7_strictly_decreasing_rsi_0 (prices : List ℚ)
    (h15 : 15 ≤ prices.length) (hmono : List.Chain' (· > ·) prices) :
    get_rsi prices = some (EF.num 0) :=
  get_rsi_dec_0 prices h15 hmono

/-- C7 witness: the concrete strictly decreasing series `dec15`. -/
theorem C7_witness : get_rsi dec15 = some (EF.num 0) :=
  C7_strictly_decreasing_rsi_0 dec15 (by norm_num [dec15])
    (by simp [dec15, List.chain'_cons]; norm_num)

/-- C8: whenever the RSI calculator returns a finite numeric value on
any input series, that value lies in `[0, 100]`. -/
theorem C8_rsi_defined_in_range (prices : List ℚ) (q : ℚ)
    (h : get_rsi prices = some (EF.num q)) : 0 ≤ q ∧ q ≤ 100 :=
  get_rsi_range prices q h

/-- C8 witness: at `inc15` the calculator returns the finite value 100,
which the theorem places in `[0, 100]`. -/
theorem C8_witness : (0 : ℚ) ≤ 100 ∧ (100 : ℚ) ≤ 100 :=
  C8_rsi_defined_in_range inc15 100
    (get_rsi_inc_100 inc15 (by norm_num [inc15])
      (by simp [inc15, List.chain'_cons]; norm_num))

/-- C9: with fewer than 200 points the crossover detector returns
Unknown (`None`), never one of the three labels. -/
theorem C9_insufficient_history_unknown (prices : List ℚ)
    (h : prices.length < 200) : get_200d_50d_crossover prices = none := by
  simp only [get_200d_50d_crossover]
  rw [if_pos h]

/-- C9 witness: the 50-point increasing integer series of the spec's
scenario. -/
theorem C9_witness : get_200d_50d_crossover c9series = none :=
  C9_insufficient_history_unknown c9series
    (by simp only [c9series, List.length_map, List.length_range]; omega)

/-- C10: in the row assembly of `fetch_stock_data_with_indicators`, a
computed value of exactly 0 for Current Price, PE Ratio, Market Cap,
Dividend Yield or RSI is rendered as `"N/A"` (the builder tests Python
truthiness), while a MACD or Signal Line value of 0 is rendered as the
number `0.0` (those two fields test `is not None`). -/
theorem C10_zero_becomes_NA (t : String) (cp pe0 mc dy : Option ℚ)
    (rsi0 : Option EF) (mv sv : Option ℚ) :
    (cp = some 0 → (buildRowFrom t cp pe0 mc dy rsi0 mv sv).currentPrice =
      Cell.str "N/A") ∧
    (pe0 = some 0 → (buildRowFrom t cp pe0 mc dy rsi0 mv sv).pe =
      Cell.str "N/A") ∧
    (mc = some 0 → (buildRowFrom t cp pe0 mc dy rsi0 mv sv).marketCap =
      Cell.str "N/A") ∧
    (dy = some 0 → (buildRowFrom t cp pe0 mc dy rsi0 mv sv).dividendYield =
      Cell.str "N/A") ∧
    (rsi0 = some (EF.num 0) → (buildRowFrom t cp pe0 mc dy rsi0 mv sv).rsi =
      Cell.str "N/A") ∧
    (mv = some 0 → (buildRowFrom t cp pe0 mc dy rsi0 mv sv).macd =
      Cell.num (EF.num 0)) ∧
    (sv = some 0 → (buildRowFrom t cp pe0 mc dy rsi0 mv sv).signalLine =
      Cell.num (EF.num 0)) := by
  refine ⟨?_, ?_, ?_, ?_, ?_, ?_, ?_⟩ <;> intro h <;> subst h <;>
    simp [buildRowFrom, roundTo_zero]

/-- C10 witness: the all-zero row. -/
theorem C10_witness :
    (buildRowFrom "X" (some 0) (some 0) (some 0) (some 0) (some (EF.num 0))
      (some 0) (some 0)).currentPrice = Cell.str "N/A" ∧
    (buildRowFrom "X" (some 0) (some 0) (some 0) (some 0) (some (EF.num 0))
      (some 0) (some 0)).pe = Cell.str "N/A" ∧
    (buildRowFrom "X" (some 0) (some 0) (some 0) (some 0) (some (EF.num 0))
      (some 0) (some 0)).marketCap = Cell.str "N/A" ∧
    (buildRowFrom "X" (some 0) (some 0) (some 0) (some 0) (some (EF.num 0))
      (some 0) (some 0)).dividendYield = Cell.str "N/A" ∧
    (buildRowFrom "X" (some 0) (some 0) (some 0) (some 0) (some (EF.num 0))
      (some 0) (some 0)).rsi = Cell.str "N/A" ∧
    (buildRowFrom "X" (some 0) (some 0) (some 0) (some 0) (some (EF.num 0))
      (some 0) (some 0)).macd = Cell.num (EF.num 0) ∧
    (buildRowFrom "X" (some 0) (some 0) (some 0) (some 0) (some (EF.num 0))
      (some 0) (some 0)).signalLine = Cell.num (EF.num 0) := by
  have h := C10_zero_becomes_NA "X" (some 0) (some 0) (some 0) (some 0)
    (some (EF.num 0)) (some 0) (some 0)
  exact ⟨h.1 rfl, h.2.1 rfl, h.2.2.1 rfl, h.2.2.2.1 rfl, h.2.2.2.2.1 rfl,
    h.2.2.2.2.2.1 rfl, h.2.2.2.2.2.2 rfl⟩

end StockIndicators
